import Mathlib

/-!
Verification of the entry-insertion and tree-materialization protocol of an
LDAP-like hierarchical entry store (ldap-pg).

The repository contains two alternate implementations of the insert path:

* namespace `V1` embeds `src/unnamed/part_000` (the conditional-insert
  variant: every structural write is an INSERT ... SELECT ... WHERE NOT
  EXISTS, with a materialized-path `ldap_tree` table);
* namespace `V2` embeds `src/repo_create.go` (the variant with DC entries,
  plain INSERT relying on the unique constraint plus pq error translation,
  member resolution and batching).

SQL statements are embedded by their relational semantics on an explicit
state (lists of rows); transactions are state passing, where an error
result models rollback (the pre-state stays the observable store).
-/

/-- Domain error taxonomy of the repository (NewAlreadyExists,
NewNoSuchObject, NewInvalidDNSyntax, NewUnavailable, and wrapped
xerrors/driver errors as genericErr). -/
inductive Err where
  | alreadyExists
  | noSuchObject
  | invalidDNSyntax
  | unavailable
  | genericErr (msg : String)
deriving DecidableEq, Repr

/-- A low-level PostgreSQL driver error carrying its SQLSTATE code. -/
structure PqError where
  code : String
deriving DecidableEq, Repr

instance {ε α : Type} [DecidableEq ε] [DecidableEq α] : DecidableEq (Except ε α) :=
  fun a b =>
    match a, b with
    | .error x, .error y =>
      if h : x = y then .isTrue (by rw [h]) else .isFalse (fun heq => h (by cases heq; rfl))
    | .ok x, .ok y =>
      if h : x = y then .isTrue (by rw [h]) else .isFalse (fun heq => h (by cases heq; rfl))
    | .error _, .ok _ => .isFalse (fun heq => by cases heq)
    | .ok _, .error _ => .isFalse (fun heq => by cases heq)

/-- One RDN component, normalized and original form. -/
structure RDN where
  rdn_norm : String
  rdn_orig : String
deriving DecidableEq, Repr

/-- A distinguished name as its ordered RDN components, leaf first.
The root (or DC suffix) is modelled as a single component. -/
structure DN where
  rdns : List RDN
deriving DecidableEq, Repr

/-- IsRoot of the DN service: the DN is the directory suffix. -/
def DN.IsRoot (dn : DN) : Bool :=
  dn.rdns.length = 1

/-- Parent DN: drop the leaf RDN. Total version used where the Go code
calls `ParentDN()` without a nil check. -/
def DN.ParentDN (dn : DN) : DN :=
  ⟨dn.rdns.tail⟩

/-- Normalized RDN of the leaf component. -/
def DN.RDNNorm (dn : DN) : String :=
  match dn.rdns with
  | [] => ""
  | r :: _ => r.rdn_norm

/-- Original RDN of the leaf component. -/
def DN.RDNOrig (dn : DN) : String :=
  match dn.rdns with
  | [] => ""
  | r :: _ => r.rdn_orig

namespace V1

/-- One row of the `ldap_entry` table in the part_000 variant:
`parent` is NULL exactly for the root entry. -/
structure Entry where
  id : Nat
  parent : Option Nat
  rdn_norm : String
  rdn_orig : String
  attrs_norm : String
  attrs_orig : String
deriving DecidableEq, Repr

/-- One row of the `ldap_tree` table: `path` is the materialized path,
the SQL expression `p.path || :id` is list concatenation. -/
structure TreeNode where
  id : Nat
  path : List Nat
deriving DecidableEq, Repr

/-- Database state for the part_000 variant. `nextId` is the id
sequence backing the RETURNING id column. -/
structure State where
  entries : List Entry
  tree : List TreeNode
  nextId : Nat
deriving DecidableEq, Repr

/-- The entry a new row is inserted from: DN plus mapped attributes
(mapper.AddEntryToDBEntry is the external Entry Mapper; its output is
carried directly in the record). -/
structure AddEntry where
  dn : DN
  attrs_norm : String
  attrs_orig : String
deriving DecidableEq, Repr

/-- Modelled from the spec: createFindBasePathByDNSQL / the DN-to-row
resolution SQL is not under src (only its caller is). It resolves a
normalized DN to its entry row by walking parent links from the root:
the suffix component matches the row with parent NULL, every deeper
component matches the child row by (parent_id, rdn_norm). -/
def resolveRDNs (s : State) : List RDN → Option Entry
  | [] => none
  | [r] => s.entries.find? (fun e => e.parent = none && e.rdn_norm = r.rdn_norm)
  | r :: rest =>
    match resolveRDNs s rest with
    | none => none
    | some p => s.entries.find? (fun e => e.parent = some p.id && e.rdn_norm = r.rdn_norm)

/-- Resolve a DN to its entry row. -/
def resolveDN (s : State) (dn : DN) : Option Entry :=
  resolveRDNs s dn.rdns

/-- FindOption of the repository; `lock` mirrors SELECT ... FOR UPDATE.
In this sequential embedding the lock has no semantic content beyond the
serialization of transactions that it provides. -/
structure FindOption where
  lock : Bool
deriving DecidableEq, Repr

/-- The FindOption passed by insertEntry when it resolves the parent DN:
the source builds the lookup with FindOption Lock true. -/
def insertEntryFindOption : FindOption :=
  ⟨true⟩

/-- Guard message of insertEntry / insertEntryAndTree for a root DN. -/
def notRootGuardMsg : String :=
  "Invalid entry, it should not be root DN"

/-- Guard message of insertRootEntry for a non-root DN. -/
def rootGuardMsg : String :=
  "Invalid entry, it should be root DN"

/-- insertEntry of part_000: conditional INSERT ... SELECT p.id, ...
FROM (find parent, locked) p WHERE NOT EXISTS (sibling with same
rdn_norm) RETURNING id, parent_id. Zero returned rows (parent not found
by the subquery, or a sibling already present) report AlreadyExists. -/
def insertEntry (s : State) (entry : AddEntry) : Except Err (Nat × Nat × State) :=
  if entry.dn.IsRoot then
    .error (.genericErr notRootGuardMsg)
  else
    match resolveDN s entry.dn.ParentDN with
    | none => .error .alreadyExists
    | some p =>
      if s.entries.any (fun e => e.parent = some p.id && e.rdn_norm = entry.dn.RDNNorm) then
        .error .alreadyExists
      else
        .ok (s.nextId, p.id,
          { s with
            entries := s.entries ++
              [⟨s.nextId, some p.id, entry.dn.RDNNorm, entry.dn.RDNOrig,
                entry.attrs_norm, entry.attrs_orig⟩]
            nextId := s.nextId + 1 })

/-- insertTree of part_000. Root form inserts path = [id]; non-root form
joins ldap_tree t with ldap_entry e on e.id = id and e.parent_id = t.id
and inserts path = t.path ++ [id]. Both are guarded by NOT EXISTS (a row
with this id); zero returned rows are not an error. -/
def insertTree (s : State) (id : Nat) (isRoot : Bool) : Except Err State :=
  if s.tree.any (fun t => t.id = id) then
    .ok s
  else if isRoot then
    .ok { s with tree := s.tree ++ [⟨id, [id]⟩] }
  else
    match s.tree.find? (fun t => s.entries.any (fun e => e.id = id && e.parent = some t.id)) with
    | some t => .ok { s with tree := s.tree ++ [⟨id, t.path ++ [id]⟩] }
    | none => .ok s

/-- insertEntryAndTree of part_000: guard against root, insert the
entry, then promote the parent (isRoot = the parent DN is the root). -/
def insertEntryAndTree (s : State) (entry : AddEntry) : Except Err (Nat × Nat × State) :=
  if entry.dn.IsRoot then
    .error (.genericErr notRootGuardMsg)
  else
    match insertEntry s entry with
    | .error e => .error e
    | .ok (newID, parentId, s1) =>
      match insertTree s1 parentId entry.dn.ParentDN.IsRoot with
      | .error e => .error e
      | .ok s2 => .ok (newID, parentId, s2)

/-- insertRootEntry of part_000: conditional INSERT ... SELECT NULL as
parent_id ... WHERE NOT EXISTS (a row with parent NULL and this
rdn_norm) RETURNING id; zero returned rows report AlreadyExists. -/
def insertRootEntry (s : State) (entry : AddEntry) : Except Err (Nat × State) :=
  if !entry.dn.IsRoot then
    .error (.genericErr rootGuardMsg)
  else if s.entries.any (fun e => e.parent = none && e.rdn_norm = entry.dn.RDNNorm) then
    .error .alreadyExists
  else
    .ok (s.nextId,
      { s with
        entries := s.entries ++
          [⟨s.nextId, none, entry.dn.RDNNorm, entry.dn.RDNOrig,
            entry.attrs_norm, entry.attrs_orig⟩]
        nextId := s.nextId + 1 })

/-- The root/non-root dispatch of insertWithTx in part_000: root DNs go
through insertRootEntry, all others through insertEntryAndTree. -/
def dispatchInsert (s : State) (entry : AddEntry) : Except Err (Nat × State) :=
  if entry.dn.IsRoot then
    insertRootEntry s entry
  else
    (insertEntryAndTree s entry).map fun r => (r.1, r.2.2)

/-- insertWithTx of part_000: dispatch on IsRoot, roll back on any error,
translate a commit failure to Unavailable. `commitFails` models the
environment making tx.Commit fail after all logical steps succeeded. -/
def insertWithTx (s : State) (entry : AddEntry) (commitFails : Bool) :
    Except Err (Nat × State) :=
  match dispatchInsert s entry with
  | .error e => .error e
  | .ok (newID, s1) =>
    if commitFails then .error .unavailable else .ok (newID, s1)

/-- Insert of part_000 as the observable store transformer: on error the
transaction is rolled back, so the pre-state is returned unchanged. -/
def runInsert (s : State) (entry : AddEntry) (commitFails : Bool) :
    (Except Err Nat) × State :=
  match insertWithTx s entry commitFails with
  | .error e => (.error e, s)
  | .ok (newID, s1) => (.ok newID, s1)

end V1

/-- IsDC of the DN service: the DN is the domain-component suffix,
modelled as the single suffix component. -/
def DN.IsDC (dn : DN) : Bool :=
  dn.rdns.length = 1

/-- Parent DN when it exists (nil in Go otherwise): at least two
components are needed for a proper parent. -/
def DN.parentDNOpt (dn : DN) : Option DN :=
  match dn.rdns with
  | [] => none
  | [_] => none
  | _ :: rest => some ⟨rest⟩

/-- Normalized string form of the whole DN. -/
def DN.DNNormStr (dn : DN) : String :=
  String.intercalate "," (dn.rdns.map RDN.rdn_norm)

/-- Original string form of the whole DN. -/
def DN.DNOrigStr (dn : DN) : String :=
  String.intercalate "," (dn.rdns.map RDN.rdn_orig)

/-- Modelled from the spec: DN.ParentPath is not under src (only its
callers are). It is the materialized ancestor-path string used as the
parent_path column of tree rows; the DC suffix maps to the root path. -/
def DN.ParentPath (dn : DN) : String :=
  if dn.rdns.length ≤ 1 then "/"
  else "/" ++ String.intercalate "/" ((dn.rdns.tail.reverse).map RDN.rdn_norm)

namespace V2

/-- Parent id of the synthetic root above the DC entry. -/
def ROOT_ID : Nat := 0

/-- One row of the `ldap_entry` table in the repo_create.go variant:
parent_id is never NULL, the DC entry has parent_id = ROOT_ID. -/
structure Entry where
  id : Nat
  parent_id : Nat
  rdn_norm : String
  rdn_orig : String
  uuid : String
  created : String
  updated : String
  attrs_norm : String
  attrs_orig : String
deriving DecidableEq, Repr

/-- One row of the `ldap_tree` table in the repo_create.go variant. -/
structure TreeNode where
  id : Nat
  parent_path : String
  parent_dn_orig : String
deriving DecidableEq, Repr

/-- One row of the `ldap_member` table:
(subject entry id, attribute role, object entry id). -/
structure Member where
  subject_id : Nat
  attr_name : String
  object_id : Nat
deriving DecidableEq, Repr

/-- Database state for the repo_create.go variant. -/
structure State where
  entries : List Entry
  tree : List TreeNode
  members : List Member
  nextId : Nat
deriving DecidableEq, Repr

/-- One declared membership reference of a new entry. -/
structure MemberEntry where
  AttrNameNorm : String
  MemberOfDNNorm : String
deriving DecidableEq, Repr

/-- The entry to insert, with its mapped storage fields (the Entry
Mapper output is carried directly) and membership references. -/
structure AddEntry where
  dn : DN
  uuid : String
  created : String
  updated : String
  attrs_norm : String
  attrs_orig : String
  members : List MemberEntry
deriving DecidableEq, Repr

/-- IsDC of AddEntry: whether the target DN is the DC suffix. -/
def AddEntry.IsDC (e : AddEntry) : Bool :=
  e.dn.IsDC

/-- The server collaborator: the directory suffix and DN
normalization (external DN Service). -/
structure Server where
  suffix : DN
  normalizeDN : String → Option DN

/-- The joined record returned by findDBEntryRecord. -/
structure DBEntryRecord where
  ID : Nat
  ParentID : Nat
  RDNOrig : String
  ParentDNOrig : String
  HasSubordinates : String
deriving DecidableEq, Repr

/-- HasChildren of DBEntryRecord. -/
def DBEntryRecord.HasChildren (d : DBEntryRecord) : Bool :=
  d.HasSubordinates = "TRUE"

/-- findDCDBEntryRecord: select the row with parent_id = ROOT_ID, with
the suffix RDN and the suffix's parent DN as constant columns and
hassubordinates 'TRUE'. No row yields nil without error. -/
def findDCDBEntryRecord (srv : Server) (s : State) : Option DBEntryRecord :=
  match s.entries.find? (fun e => e.parent_id = ROOT_ID) with
  | none => none
  | some e =>
    some ⟨e.id, ROOT_ID, srv.suffix.RDNOrig, srv.suffix.ParentDN.DNOrigStr, "TRUE"⟩

/-- findDBEntryRecord: the join of ldap_entry e with its parent tree row
pt (pt.id = e.parent_id, pt.parent_path = grand parent path) and its
parent entry pe (pe.id = pt.id, pe.rdn_norm = parent rdn), selecting the
first match. The hassubordinates CASE tests e.id, which is never NULL in
the inner join, so the column is constantly 'TRUE'. -/
def findDBEntryRecord (srv : Server) (s : State) (dn : DN) : Option DBEntryRecord :=
  if dn.IsDC then
    findDCDBEntryRecord srv s
  else
    let gp := match dn.parentDNOpt with
      | some p => p.ParentPath
      | none => "/"
    let prn := match dn.parentDNOpt with
      | some p => p.RDNNorm
      | none => ""
    (s.entries.filterMap (fun e =>
      if e.rdn_norm = dn.RDNNorm then
        match s.tree.find? (fun pt => pt.id = e.parent_id && pt.parent_path = gp) with
        | none => none
        | some pt =>
          match s.entries.find? (fun pe => pe.id = e.parent_id && pe.rdn_norm = prn) with
          | none => none
          | some pe =>
            some ⟨e.id, e.parent_id, e.rdn_orig,
                  pe.rdn_orig ++ "," ++ pt.parent_dn_orig, "TRUE"⟩
      else none)).head?

/-- findParent: resolve the parent entry of the given DN; nil without
error when not found. -/
def findParent (srv : Server) (s : State) (dn : DN) : Option DBEntryRecord :=
  findDBEntryRecord srv s dn.ParentDN

/-- Modelled from the spec: the store schema (not under src) enforces a
uniqueness constraint on (parent_id, rdn_norm); a violating plain INSERT
raises the duplicate-key SQLSTATE 23505 instead of inserting. -/
def dbInsertEntry (s : State) (parentId : Nat) (entry : AddEntry) :
    Except PqError (Nat × Nat × State) :=
  if s.entries.any (fun e => e.parent_id = parentId && e.rdn_norm = entry.dn.RDNNorm) then
    .error ⟨"23505"⟩
  else
    .ok (s.nextId, parentId,
      { s with
        entries := s.entries ++
          [⟨s.nextId, parentId, entry.dn.RDNNorm, entry.dn.RDNOrig, entry.uuid,
            entry.created, entry.updated, entry.attrs_norm, entry.attrs_orig⟩]
        nextId := s.nextId + 1 })

/-- Modelled from the spec: insertUnderDCStmt is not under src (only its
caller is). It is the specialized conditional insert directly under the
DC entry, still honoring sibling uniqueness, RETURNING id and parent_id;
zero returned rows are reported by the caller as AlreadyExists. -/
def insertUnderDCEntry (s : State) (entry : AddEntry) : Except Err (Nat × Nat × State) :=
  match s.entries.find? (fun e => e.parent_id = ROOT_ID) with
  | none => .error .alreadyExists
  | some dc =>
    if s.entries.any (fun e => e.parent_id = dc.id && e.rdn_norm = entry.dn.RDNNorm) then
      .error .alreadyExists
    else
      .ok (s.nextId, dc.id,
        { s with
          entries := s.entries ++
            [⟨s.nextId, dc.id, entry.dn.RDNNorm, entry.dn.RDNOrig, entry.uuid,
              entry.created, entry.updated, entry.attrs_norm, entry.attrs_orig⟩]
          nextId := s.nextId + 1 })

/-- insertEntry of repo_create.go: dispatch to the under-DC statement
when the parent is the DC; otherwise a plain INSERT whose duplicate-key
error 23505 is caught and translated to AlreadyExists, any other driver
error being wrapped. -/
def insertEntry (s : State) (parent : DBEntryRecord) (entry : AddEntry) :
    Except Err (Nat × Nat × State) :=
  if entry.dn.ParentDN.IsDC then
    insertUnderDCEntry s entry
  else
    match dbInsertEntry s parent.ID entry with
    | .error pqErr =>
      if pqErr.code = "23505" then .error .alreadyExists
      else .error (.genericErr "Failed to insert entry record")
    | .ok r => .ok r

/-- Modelled from the spec: insertDCStmt is not under src (only its
caller is). It is the conditional insert of the singular DC entry with
parent ROOT_ID, guarded by the absence of such a row, RETURNING id; zero
returned rows are reported by the caller as AlreadyExists. -/
def insertDCEntry (s : State) (entry : AddEntry) : Except Err (Nat × State) :=
  if s.entries.any (fun e => e.parent_id = ROOT_ID) then
    .error .alreadyExists
  else
    .ok (s.nextId,
      { s with
        entries := s.entries ++
          [⟨s.nextId, ROOT_ID, entry.dn.RDNNorm, entry.dn.RDNOrig, entry.uuid,
            entry.created, entry.updated, entry.attrs_norm, entry.attrs_orig⟩]
        nextId := s.nextId + 1 })

/-- Modelled from the spec: insertTreeStmt is not under src (only its
caller is). It inserts a tree row (id, parent_path, parent_dn_orig)
guarded by a conditional insert-only-if-absent so that concurrent
promotions do not duplicate the row. -/
def insertTree (s : State) (id : Nat) (parentPath parentDNOrig : String) :
    Except Err State :=
  if s.tree.any (fun t => t.id = id) then
    .ok s
  else
    .ok { s with tree := s.tree ++ [⟨id, parentPath, parentDNOrig⟩] }

/-- Record returned by getDCDNOrig: the DC entry id and DN. -/
structure DCRecord where
  ID : Nat
  DNOrig : String
deriving DecidableEq, Repr

/-- Modelled from the spec: getDCDNOrig is not under src (only its
caller is). It reads the DC entry (parent_id = ROOT_ID) and returns its
id and original DN, an error when the DC entry is missing. -/
def getDCDNOrig (s : State) : Except Err DCRecord :=
  match s.entries.find? (fun e => e.parent_id = ROOT_ID) with
  | none => .error (.genericErr "DC entry not found")
  | some e => .ok ⟨e.id, e.rdn_orig⟩

/-- Modelled from the spec: collectNodeNormByParentIDStmt is not under
src (only its caller is). It lists the direct children of the given
entry with their full normalized DN (child rdn_norm joined onto the
parent rdn_norm); a ROOT_ID argument is rejected as in the source. -/
def collectNodeNormByParentID (s : State) (parentID : Nat) :
    Except Err (List (Nat × String)) :=
  if parentID = ROOT_ID then
    .error (.genericErr "Invalid parentID")
  else
    match s.entries.find? (fun e => e.id = parentID) with
    | none => .ok []
    | some p =>
      .ok ((s.entries.filter (fun e => e.parent_id = parentID)).map
        (fun e => (e.id, e.rdn_norm ++ "," ++ p.rdn_norm)))

/-- Lookup in the dn-to-id cache (a Go map modelled as an association
list with distinct keys). -/
def lookupCache (cache : List (String × Nat)) (k : String) : Option Nat :=
  match cache.find? (fun kv => kv.1 = k) with
  | none => none
  | some kv => some kv.2

/-- The batching arithmetic of insertMember: gcount = len / 100 full
slices members[i*100 : i*100+100], plus, when remain = len % 100 is
positive, the final slice members[gcount*100 : gcount*100+remain]. -/
def memberBatches (members : List MemberEntry) : List (List MemberEntry) :=
  let mx := 100
  let gcount := members.length / mx
  let remain := members.length % mx
  ((List.range gcount).map (fun i => (members.drop (i * mx)).take mx))
    ++ (if remain > 0 then [(members.drop (gcount * mx)).take remain] else [])

/-- First phase of insertSubMembers: for each reference, normalize its
DN (failing the whole call with InvalidDNSyntax), look up its parent id
in the cache (failing likewise on a miss), and accumulate the
(parent_id, rdn_norm) lookup pairs and the member-type cache. -/
def resolveMemberRefs (srv : Server) (cache : List (String × Nat)) :
    List MemberEntry → Except Err (List (Nat × String) × List ((Nat × String) × String))
  | [] => .ok ([], [])
  | m :: rest =>
    match srv.normalizeDN m.MemberOfDNNorm with
    | none => .error .invalidDNSyntax
    | some mdn =>
      match lookupCache cache mdn.ParentDN.DNNormStr with
      | none => .error .invalidDNSyntax
      | some parentID =>
        match resolveMemberRefs srv cache rest with
        | .error e => .error e
        | .ok (pairs, types) =>
          .ok ((parentID, mdn.RDNNorm) :: pairs,
               ((parentID, mdn.RDNNorm), m.AttrNameNorm) :: types)

/-- insertSubMembers of repo_create.go: resolve every reference of the
batch, run one batched SELECT of all candidate (parent_id, rdn_norm)
pairs, fail with InvalidDNSyntax unless the count of resolved rows
equals the count of references, then bulk insert the edges. -/
def insertSubMembers (srv : Server) (s : State) (subjectID : Nat)
    (members : List MemberEntry) (cache : List (String × Nat)) :
    Except Err State :=
  match resolveMemberRefs srv cache members with
  | .error e => .error e
  | .ok (pairs, types) =>
    let rows := s.entries.filter (fun e =>
      pairs.any (fun pr => pr.1 = e.parent_id && pr.2 = e.rdn_norm))
    if rows.any (fun e =>
        (types.find? (fun t => t.1.1 = e.parent_id && t.1.2 = e.rdn_norm)).isNone) then
      .error (.genericErr "Failed to fetch member type")
    else if rows.length ≠ members.length then
      .error .invalidDNSyntax
    else
      .ok { s with
            members := s.members ++ rows.filterMap (fun e =>
              match types.find? (fun t => t.1.1 = e.parent_id && t.1.2 = e.rdn_norm) with
              | none => none
              | some t => some ⟨subjectID, t.2, e.id⟩) }

/-- insertMember of repo_create.go: no-op on an empty reference list,
otherwise seed the dn-to-id cache from the DC entry and its direct
descendants, then process the references in batches of 100. The value
returned by insertSubMembers is DISCARDED by the source at both call
sites, so a failing batch leaves its edges out while the call still
returns success. -/
def insertMember (srv : Server) (s : State) (subjectID : Nat) (entry : AddEntry) :
    Except Err State :=
  if entry.members.isEmpty then
    .ok s
  else
    match getDCDNOrig s with
    | .error e => .error e
    | .ok dc =>
      match collectNodeNormByParentID s dc.ID with
      | .error e => .error e
      | .ok nodes =>
        let cache := (dc.DNOrig, dc.ID) :: nodes.map (fun n => (n.2, n.1))
        .ok ((memberBatches entry.members).foldl
          (fun st m =>
            match insertSubMembers srv st subjectID m cache with
            | .ok st2 => st2
            | .error _ => st) s)

/-- insertWithTx of repo_create.go: DC entries go through the DC insert
plus an unconditional tree insert; other entries resolve the parent
(NoSuchObject when absent), promote the parent when it has no children
yet, insert the entry, then attach members. -/
def insertWithTx (srv : Server) (s : State) (entry : AddEntry) :
    Except Err (Nat × State) :=
  if entry.IsDC then
    match insertDCEntry s entry with
    | .error e => .error e
    | .ok (newID, s1) =>
      match insertTree s1 newID "/" "" with
      | .error e => .error e
      | .ok s2 => .ok (newID, s2)
  else
    match findParent srv s entry.dn with
    | none => .error .noSuchObject
    | some parent =>
      match (if !parent.HasChildren then
              (match srv.normalizeDN parent.ParentDNOrig with
               | none => .error (.genericErr "Failed to normalize parent DN")
               | some pp => insertTree s parent.ID pp.ParentPath pp.DNOrigStr : Except Err State)
             else .ok s) with
      | .error e => .error e
      | .ok s1 =>
        match insertEntry s1 parent entry with
        | .error e => .error e
        | .ok (newID, _, s2) =>
          match insertMember srv s2 newID entry with
          | .error e => .error e
          | .ok s3 => .ok (newID, s3)

/-- The raw error that tx.Commit returns on a commit failure; the Insert
of repo_create.go returns it unchanged to the caller. -/
def commitErr : Err :=
  .genericErr "tx commit error"

/-- Insert of repo_create.go as the observable store transformer: a step
error rolls the transaction back (the pre-state stays), and a commit
failure returns the commit error itself, also persisting nothing. -/
def runInsert (srv : Server) (s : State) (entry : AddEntry) (commitFails : Bool) :
    (Except Err Nat) × State :=
  match insertWithTx srv s entry with
  | .error e => (.error e, s)
  | .ok (newID, s1) =>
    if commitFails then (.error commitErr, s) else (.ok newID, s1)

end V2

/-! ### Invariants of the V1 store -/

namespace V1

/-- Entry ids are pairwise distinct. -/
def EntriesUnique (s : State) : Prop :=
  s.entries.Pairwise (fun a b => a.id ≠ b.id)

/-- Tree row ids are pairwise distinct. -/
def TreeUnique (s : State) : Prop :=
  s.tree.Pairwise (fun a b => a.id ≠ b.id)

/-- Every id already used is below the id sequence. -/
def IdsBounded (s : State) : Prop :=
  (∀ e ∈ s.entries, e.id < s.nextId) ∧ (∀ t ∈ s.tree, t.id < s.nextId)

/-- The materialized-path property of one tree row with respect to the
entry it scaffolds: a root entry is its own path, any other entry
extends the path of its parent tree row by its own id. -/
def pathOk (s : State) (t : TreeNode) (e : Entry) : Prop :=
  match e.parent with
  | none => t.path = [t.id]
  | some pid => ∃ pt ∈ s.tree, pt.id = pid ∧ t.path = pt.path ++ [t.id]

/-- The path invariant of the whole store: every tree row satisfies the
materialized-path property for its entry. Because the parent tree row is
again in the store, the property holds transitively up to the root. -/
def PathInv (s : State) : Prop :=
  ∀ t ∈ s.tree, ∀ e ∈ s.entries, e.id = t.id → pathOk s t e

/-- At most one root entry exists per rdn_norm. -/
def RootUnique (s : State) : Prop :=
  s.entries.Pairwise (fun a b => a.parent = none → b.parent = none → a.rdn_norm ≠ b.rdn_norm)

/-- The conjunction of the structural store invariants. -/
def Inv (s : State) : Prop :=
  EntriesUnique s ∧ TreeUnique s ∧ IdsBounded s ∧ PathInv s

end V1

/-! ### Shared list lemmas -/

theorem find?_append_some {α : Type} {f : α → Bool} {l l2 : List α} {x : α}
    (h : l.find? f = some x) : (l ++ l2).find? f = some x := by
  rw [List.find?_append, h]
  rfl

theorem pairwise_key_eq {α : Type} {key : α → Nat} {l : List α}
    (h : l.Pairwise (fun a b => key a ≠ key b)) :
    ∀ a ∈ l, ∀ b ∈ l, key a = key b → a = b := by
  intro a ha b hb hk
  by_contra hne
  have hsymm : Symmetric (fun a b : α => key a ≠ key b) :=
    fun x y hxy heq => hxy heq.symm
  exact (h.forall hsymm ha hb hne) hk

theorem resolveRDNs_mono {s s2 : V1.State} {l : List V1.Entry}
    (hent : s2.entries = s.entries ++ l) {rdns : List RDN}
    {p : V1.Entry} (h : V1.resolveRDNs s rdns = some p) :
    V1.resolveRDNs s2 rdns = some p := by
  induction rdns generalizing p with
  | nil => simp [V1.resolveRDNs] at h
  | cons r rest ih =>
    cases rest with
    | nil =>
      simp only [V1.resolveRDNs] at h ⊢
      rw [hent]
      exact find?_append_some h
    | cons r2 rest2 =>
      simp only [V1.resolveRDNs] at h ⊢
      cases hrec : V1.resolveRDNs s (r2 :: rest2) with
      | none => rw [hrec] at h; exact absurd h (by simp)
      | some q =>
        rw [hrec] at h
        rw [show V1.resolveRDNs s2 (r2 :: rest2) = some q from ih hrec]
        rw [hent]
        exact find?_append_some h

/-! ### Concrete example directory used by witnesses -/

/-- Suffix RDN of the example directory. -/
def dcRDN : RDN := ⟨"dc=example", "dc=Example"⟩

/-- RDN of the people organizational unit. -/
def peopleRDN : RDN := ⟨"ou=people", "ou=People"⟩

/-- RDN of the user alice. -/
def aliceRDN : RDN := ⟨"cn=alice", "cn=Alice"⟩

/-- DN of the directory suffix. -/
def dcDN : DN := ⟨[dcRDN]⟩

/-- DN of ou=people,dc=example. -/
def peopleDN : DN := ⟨[peopleRDN, dcRDN]⟩

/-- DN of cn=alice,ou=people,dc=example. -/
def aliceDN : DN := ⟨[aliceRDN, peopleRDN, dcRDN]⟩

/-- V1 store holding the root, ou=people and its promotion. -/
def exV1State : V1.State :=
  ⟨[⟨1, none, "dc=example", "dc=Example", "a", "b"⟩,
    ⟨2, some 1, "ou=people", "ou=People", "c", "d"⟩],
   [⟨1, [1]⟩], 3⟩

/-- V1 add request for cn=alice,ou=people,dc=example. -/
def exV1Alice : V1.AddEntry := ⟨aliceDN, "e", "f"⟩

/-- Example server: the suffix plus a normalizer recognizing the DNs of
the example directory. -/
def exServer : V2.Server :=
  ⟨dcDN, fun str =>
    if str = "cn=alice,ou=people,dc=example" then some aliceDN
    else if str = "cn=bob,ou=people,dc=example" then
      some ⟨[⟨"cn=bob", "cn=Bob"⟩, peopleRDN, dcRDN]⟩
    else none⟩

/-- V2 store holding the DC, ou=people and cn=alice. -/
def exV2State : V2.State :=
  ⟨[⟨1, V2.ROOT_ID, "dc=example", "dc=Example", "u1", "c1", "m1", "a", "b"⟩,
    ⟨2, 1, "ou=people", "ou=People", "u2", "c2", "m2", "c", "d"⟩,
    ⟨3, 2, "cn=alice", "cn=Alice", "u3", "c3", "m3", "e", "f"⟩],
   [⟨1, "/", ""⟩], [], 4⟩

/-- V2 add request for a group referencing the existing cn=alice. -/
def exV2Group : V2.AddEntry :=
  ⟨⟨[⟨"cn=admins", "cn=Admins"⟩, peopleRDN, dcRDN]⟩, "u4", "c4", "m4", "g", "h",
   [⟨"member", "cn=alice,ou=people,dc=example"⟩]⟩

/-- V2 add request for a group referencing cn=bob, which normalizes but
resolves to no existing entry. -/
def exV2GroupBad : V2.AddEntry :=
  ⟨⟨[⟨"cn=badg", "cn=BadG"⟩, peopleRDN, dcRDN]⟩, "u5", "c5", "m5", "g", "h",
   [⟨"member", "cn=bob,ou=people,dc=example"⟩]⟩

/-! ### Claims -/

/-- C4: inserting a non-DC entry whose parent DN does not resolve to an
existing entry returns NoSuchObject and leaves the store unchanged: no
new Entry, TreeNode, or MembershipEdge rows. -/
theorem c4_no_parent_no_such_object (srv : V2.Server) (s : V2.State)
    (entry : V2.AddEntry) (cf : Bool)
    (hdc : entry.IsDC = false)
    (hpar : V2.findParent srv s entry.dn = none) :
    V2.runInsert srv s entry cf = (.error .noSuchObject, s) := by
  rw [V2.runInsert, V2.insertWithTx, if_neg (by simp [hdc]), hpar]

/-- Witness for C4: inserting cn=alice into an empty store (its parent
ou=people,dc=example does not exist) reports NoSuchObject and leaves the
empty store as is. -/
theorem c4_no_parent_no_such_object_witness :
    V2.runInsert exServer ⟨[], [], [], 1⟩ ⟨aliceDN, "u", "c", "m", "e", "f", []⟩ false =
      (.error .noSuchObject, ⟨[], [], [], 1⟩) :=
  c4_no_parent_no_such_object exServer ⟨[], [], [], 1⟩
    ⟨aliceDN, "u", "c", "m", "e", "f", []⟩ false (by decide) (by decide)

/-- C1: when an entry with the same (parent_id, rdn_norm) already
exists, a child insert reports AlreadyExists in both variants: in
part_000 the conditional insert returns zero rows, and in repo_create.go
the duplicate-key signal 23505 of the plain insert is caught and
translated; neither surfaces a raw constraint-violation error. -/
theorem c1_duplicate_insert_already_exists
    (s1 : V1.State) (e1 : V1.AddEntry) (p : V1.Entry)
    (h1root : e1.dn.IsRoot = false)
    (h1par : V1.resolveDN s1 e1.dn.ParentDN = some p)
    (h1dup : ∃ e ∈ s1.entries, e.parent = some p.id ∧ e.rdn_norm = e1.dn.RDNNorm)
    (s2 : V2.State) (par : V2.DBEntryRecord) (e2 : V2.AddEntry)
    (h2dc : e2.dn.ParentDN.IsDC = false)
    (h2dup : ∃ e ∈ s2.entries, e.parent_id = par.ID ∧ e.rdn_norm = e2.dn.RDNNorm) :
    V1.insertEntry s1 e1 = .error .alreadyExists ∧
    V2.insertEntry s2 par e2 = .error .alreadyExists := by
  constructor
  · rw [V1.insertEntry, if_neg (by simp [h1root]), h1par]
    have hany : s1.entries.any (fun e => e.parent = some p.id && e.rdn_norm = e1.dn.RDNNorm) = true := by
      rw [List.any_eq_true]
      obtain ⟨e, he, hp, hr⟩ := h1dup
      exact ⟨e, he, by simp [hp, hr]⟩
    simp only [hany, if_true]
  · rw [V2.insertEntry, if_neg (by simp [h2dc]), V2.dbInsertEntry]
    have hany : s2.entries.any (fun e => e.parent_id = par.ID && e.rdn_norm = e2.dn.RDNNorm) = true := by
      rw [List.any_eq_true]
      obtain ⟨e, he, hp, hr⟩ := h2dup
      exact ⟨e, he, by simp [hp, hr]⟩
    rw [if_pos hany]
    rfl

/-- Witness for C1: re-inserting ou=people under the root in the V1
store, and cn=alice under ou=people in the V2 store, both report
AlreadyExists. -/
theorem c1_duplicate_insert_already_exists_witness :
    V1.insertEntry exV1State ⟨peopleDN, "x", "y"⟩ = .error .alreadyExists ∧
    V2.insertEntry exV2State ⟨2, 1, "ou=People", "dc=Example", "TRUE"⟩
      ⟨aliceDN, "u9", "c9", "m9", "x", "y", []⟩ = .error .alreadyExists :=
  c1_duplicate_insert_already_exists
    exV1State ⟨peopleDN, "x", "y"⟩ ⟨1, none, "dc=example", "dc=Example", "a", "b"⟩
    (by decide) (by decide)
    ⟨⟨2, some 1, "ou=people", "ou=People", "c", "d"⟩, by decide, rfl, rfl⟩
    exV2State ⟨2, 1, "ou=People", "dc=Example", "TRUE"⟩
    ⟨aliceDN, "u9", "c9", "m9", "x", "y", []⟩
    (by decide)
    ⟨⟨3, 2, "cn=alice", "cn=Alice", "u3", "c3", "m3", "e", "f"⟩, by decide, rfl, rfl⟩

/-- C6: tree promotion is idempotent from the caller's perspective: when
a tree row for the node already exists, insertTree of part_000 inserts
nothing and returns success, and repeating a promotion neither errors
nor adds a second row, so at most one TreeNode row per id remains. -/
theorem c6_insertTree_idempotent (s : V1.State) (id : Nat) (b : Bool)
    (hcount : s.tree.countP (fun t => t.id = id) ≤ 1) :
    ((∃ t ∈ s.tree, t.id = id) → V1.insertTree s id b = .ok s) ∧
    (∀ s', V1.insertTree s id b = .ok s' →
      V1.insertTree s' id b = .ok s' ∧ s'.tree.countP (fun t => t.id = id) ≤ 1) := by
  constructor
  · intro hex
    have hany : s.tree.any (fun t => t.id = id) = true := by
      rw [List.any_eq_true]
      obtain ⟨t, ht, hid⟩ := hex
      exact ⟨t, ht, by simp [hid]⟩
    simp [V1.insertTree, hany]
  · intro s' hs'
    by_cases hany : s.tree.any (fun t => t.id = id) = true
    · rw [V1.insertTree, if_pos hany] at hs'
      simp only [Except.ok.injEq] at hs'
      subst hs'
      rw [V1.insertTree, if_pos hany]
      exact ⟨rfl, hcount⟩
    · have hcount0 : s.tree.countP (fun t => t.id = id) = 0 := by
        rw [List.countP_eq_zero]
        intro t ht
        exact fun hp => hany (List.any_eq_true.mpr ⟨t, ht, hp⟩)
      rw [V1.insertTree, if_neg hany] at hs'
      cases b with
      | true =>
        rw [if_pos rfl] at hs'
        simp only [Except.ok.injEq] at hs'
        subst hs'
        have hany' : (s.tree ++ [(⟨id, [id]⟩ : V1.TreeNode)]).any (fun t => t.id = id) = true := by
          rw [List.any_eq_true]
          exact ⟨⟨id, [id]⟩, by simp, by simp⟩
        constructor
        · rw [V1.insertTree]
          exact if_pos hany'
        · simp [List.countP_append, hcount0]
      | false =>
        rw [if_neg (by simp)] at hs'
        cases hfind : s.tree.find? (fun t => s.entries.any (fun e => e.id = id && e.parent = some t.id)) with
        | none =>
          rw [hfind] at hs'
          simp only [Except.ok.injEq] at hs'
          subst hs'
          refine ⟨?_, hcount⟩
          rw [V1.insertTree, if_neg hany, if_neg (by simp), hfind]
        | some t =>
          rw [hfind] at hs'
          simp only [Except.ok.injEq] at hs'
          subst hs'
          have hany' : (s.tree ++ [(⟨id, t.path ++ [id]⟩ : V1.TreeNode)]).any
              (fun u => u.id = id) = true := by
            rw [List.any_eq_true]
            exact ⟨⟨id, t.path ++ [id]⟩, by simp, by simp⟩
          constructor
          · rw [V1.insertTree]
            exact if_pos hany'
          · simp [List.countP_append, hcount0]

/-- Witness for C6 at a concrete store that already holds the tree row:
the promotion returns success and leaves the single row in place. -/
theorem c6_insertTree_idempotent_witness :
    V1.insertTree ⟨[], [⟨5, [5]⟩], 9⟩ 5 false = .ok ⟨[], [⟨5, [5]⟩], 9⟩ :=
  (c6_insertTree_idempotent ⟨[], [⟨5, [5]⟩], 9⟩ 5 false (by decide)).1 ⟨⟨5, [5]⟩, by decide, rfl⟩

/-- C7: at most one root entry per rdn_norm: insertRootEntry of part_000
is guarded by the absence of a row with parent NULL and the same
rdn_norm; when such a row exists it reports AlreadyExists (without
touching the store, as the transaction aborts), and a successful insert
preserves root uniqueness. -/
theorem c7_root_singularity (s : V1.State) (entry : V1.AddEntry)
    (hroot : entry.dn.IsRoot = true) :
    ((∃ e ∈ s.entries, e.parent = none ∧ e.rdn_norm = entry.dn.RDNNorm) →
      V1.insertRootEntry s entry = .error .alreadyExists) ∧
    (V1.RootUnique s → ∀ id s', V1.insertRootEntry s entry = .ok (id, s') →
      V1.RootUnique s') := by
  constructor
  · intro hex
    have hany : s.entries.any (fun e => e.parent = none && e.rdn_norm = entry.dn.RDNNorm) = true := by
      rw [List.any_eq_true]
      obtain ⟨e, he, h1, h2⟩ := hex
      exact ⟨e, he, by simp [h1, h2]⟩
    simp [V1.insertRootEntry, hroot, hany]
  · intro huniq id s' hs'
    rw [V1.insertRootEntry] at hs'
    rw [if_neg (by simp [hroot])] at hs'
    by_cases hany : s.entries.any (fun e => e.parent = none && e.rdn_norm = entry.dn.RDNNorm) = true
    · rw [if_pos hany] at hs'
      exact absurd hs' (by simp)
    · rw [if_neg hany] at hs'
      simp only [Except.ok.injEq, Prod.mk.injEq] at hs'
      obtain ⟨-, rfl⟩ := hs'
      unfold V1.RootUnique at huniq ⊢
      rw [List.pairwise_append]
      refine ⟨huniq, by simp, ?_⟩
      intro a ha b hb hpa hpb
      simp only [List.mem_singleton] at hb
      subst hb
      intro hrdn
      apply hany
      rw [List.any_eq_true]
      exact ⟨a, ha, by simp [hpa, hrdn]⟩

/-- Witness for C7 at a concrete store that already holds a root row
with the same rdn_norm: the second attempt reports AlreadyExists. -/
theorem c7_root_singularity_witness :
    V1.insertRootEntry ⟨[⟨1, none, "dc=example", "dc=Example", "a", "b"⟩], [], 2⟩
      ⟨⟨[⟨"dc=example", "dc=Example2"⟩]⟩, "x", "y"⟩ = .error .alreadyExists :=
  (c7_root_singularity _ _ (by decide)).1
    ⟨⟨1, none, "dc=example", "dc=Example", "a", "b"⟩, by decide, rfl, rfl⟩

/-! ### Error classification lemmas for the V1 flow -/

theorem v1_insertEntry_error_already {s : V1.State} {e : V1.AddEntry}
    (h : e.dn.IsRoot = false) :
    ∀ err, V1.insertEntry s e = .error err → err = .alreadyExists := by
  intro err herr
  rw [V1.insertEntry, if_neg (by simp [h])] at herr
  cases hres : V1.resolveDN s e.dn.ParentDN with
  | none =>
    rw [hres] at herr
    simp only [Except.error.injEq] at herr
    exact herr.symm
  | some p =>
    rw [hres] at herr
    by_cases hany : s.entries.any (fun x => x.parent = some p.id && x.rdn_norm = e.dn.RDNNorm) = true
    · simp only [hany, if_true, Except.error.injEq] at herr
      exact herr.symm
    · simp only [hany, if_false, Bool.false_eq_true] at herr
      exact absurd herr (by simp)

theorem v1_insertTree_ok (s : V1.State) (id : Nat) (b : Bool) :
    ∃ s', V1.insertTree s id b = .ok s' := by
  unfold V1.insertTree
  split
  · exact ⟨_, rfl⟩
  · split
    · exact ⟨_, rfl⟩
    · split
      · exact ⟨_, rfl⟩
      · exact ⟨_, rfl⟩

theorem v1_insertEntryAndTree_error_already {s : V1.State} {e : V1.AddEntry}
    (h : e.dn.IsRoot = false) :
    ∀ err, V1.insertEntryAndTree s e = .error err → err = .alreadyExists := by
  intro err herr
  rw [V1.insertEntryAndTree, if_neg (by simp [h])] at herr
  cases hres : V1.insertEntry s e with
  | error er =>
    simp only [hres, Except.error.injEq] at herr
    exact herr ▸ v1_insertEntry_error_already h er hres
  | ok r =>
    obtain ⟨n, pid, s1⟩ := r
    simp only [hres] at herr
    obtain ⟨s2, hs2⟩ := v1_insertTree_ok s1 pid e.dn.ParentDN.IsRoot
    simp only [hs2] at herr
    exact absurd herr (by simp)

theorem v1_insertRootEntry_error_already {s : V1.State} {e : V1.AddEntry}
    (h : e.dn.IsRoot = true) :
    ∀ err, V1.insertRootEntry s e = .error err → err = .alreadyExists := by
  intro err herr
  rw [V1.insertRootEntry, if_neg (by simp [h])] at herr
  by_cases hany : s.entries.any (fun x => x.parent = none && x.rdn_norm = e.dn.RDNNorm) = true
  · simp only [hany, if_true, Except.error.injEq] at herr
    exact herr.symm
  · simp only [hany, if_false, Bool.false_eq_true] at herr
    exact absurd herr (by simp)

/-- C10: the root/non-root dispatch is guarded at every level:
insertRootEntry rejects any non-root DN, insertEntry and
insertEntryAndTree reject any root DN, and under the insertWithTx
dispatch these guard errors are unreachable — every error surfacing from
insertWithTx differs from both guard errors. -/
theorem c10_dispatch_guards (s : V1.State) (e : V1.AddEntry) (cf : Bool) :
    (e.dn.IsRoot = false →
      V1.insertRootEntry s e = .error (.genericErr V1.rootGuardMsg)) ∧
    (e.dn.IsRoot = true →
      V1.insertEntry s e = .error (.genericErr V1.notRootGuardMsg) ∧
      V1.insertEntryAndTree s e = .error (.genericErr V1.notRootGuardMsg)) ∧
    (∀ r, V1.insertWithTx s e cf = .error r →
      r ≠ .genericErr V1.rootGuardMsg ∧ r ≠ .genericErr V1.notRootGuardMsg) := by
  refine ⟨?_, ?_, ?_⟩
  · intro h
    rw [V1.insertRootEntry, if_pos (by simp [h])]
  · intro h
    constructor
    · rw [V1.insertEntry, if_pos h]
    · rw [V1.insertEntryAndTree, if_pos h]
  · intro r hr
    rw [V1.insertWithTx] at hr
    cases hd : V1.dispatchInsert s e with
    | error er =>
      simp only [hd, Except.error.injEq] at hr
      subst hr
      rw [V1.dispatchInsert] at hd
      by_cases hroot : e.dn.IsRoot = true
      · rw [if_pos hroot] at hd
        have := v1_insertRootEntry_error_already hroot er hd
        subst this
        exact ⟨by simp, by simp⟩
      · rw [if_neg hroot] at hd
        have hroot' : e.dn.IsRoot = false := by
          cases h : e.dn.IsRoot
          · rfl
          · exact absurd h hroot
        cases hres : V1.insertEntryAndTree s e with
        | error er2 =>
          simp only [hres, Except.map, Except.error.injEq] at hd
          subst hd
          have := v1_insertEntryAndTree_error_already hroot' er2 hres
          subst this
          exact ⟨by simp, by simp⟩
        | ok r2 =>
          simp [hres, Except.map] at hd
    | ok p =>
      obtain ⟨n, s1⟩ := p
      simp only [hd] at hr
      cases cf with
      | true =>
        simp only [if_true, Except.error.injEq] at hr
        subst hr
        exact ⟨by simp, by simp⟩
      | false =>
        simp at hr

/-- Witness for C10: in the example V1 store, insertRootEntry rejects
the non-root alice DN and insertEntry rejects the root DN, both with the
corresponding guard error. -/
theorem c10_dispatch_guards_witness :
    V1.insertRootEntry exV1State exV1Alice = .error (.genericErr V1.rootGuardMsg) ∧
    V1.insertEntry exV1State ⟨dcDN, "x", "y"⟩ = .error (.genericErr V1.notRootGuardMsg) :=
  ⟨(c10_dispatch_guards exV1State exV1Alice false).1 (by decide),
   ((c10_dispatch_guards exV1State ⟨dcDN, "x", "y"⟩ false).2.1 (by decide)).1⟩

/-- V1 store after also inserting cn=alice: the child row and the
promotion of ou=people with path 1/2. -/
def exV1StateAfter : V1.State :=
  ⟨[⟨1, none, "dc=example", "dc=Example", "a", "b"⟩,
    ⟨2, some 1, "ou=people", "ou=People", "c", "d"⟩,
    ⟨3, some 2, "cn=alice", "cn=Alice", "e", "f"⟩],
   [⟨1, [1]⟩, ⟨2, [1, 2]⟩], 4⟩

/-- V2 store after also inserting the cn=admins group with its single
membership edge to cn=alice. -/
def exV2StateAfter : V2.State :=
  ⟨[⟨1, V2.ROOT_ID, "dc=example", "dc=Example", "u1", "c1", "m1", "a", "b"⟩,
    ⟨2, 1, "ou=people", "ou=People", "u2", "c2", "m2", "c", "d"⟩,
    ⟨3, 2, "cn=alice", "cn=Alice", "u3", "c3", "m3", "e", "f"⟩,
    ⟨4, 2, "cn=admins", "cn=Admins", "u4", "c4", "m4", "g", "h"⟩],
   [⟨1, "/", ""⟩], [⟨4, "member", 3⟩], 4 + 1⟩

/-- C3 counterexample: in repo_create.go all steps of inserting
cn=admins succeed, but when the commit fails the caller receives the raw
commit error, not Unavailable as the claim states. -/
theorem c3_commit_error_counterexample :
    (V2.runInsert exServer exV2State exV2Group false).1 = .ok 4 ∧
    V2.runInsert exServer exV2State exV2Group true = (.error V2.commitErr, exV2State) ∧
    V2.commitErr ≠ .unavailable := by
  decide

/-- C3 amended: any step failure rolls the transaction back and returns
the original error with no partial state committed, in both variants;
on a commit failure after successful steps, part_000's insertWithTx
returns Unavailable, while repo_create.go's Insert returns the commit
error unchanged (still committing nothing). -/
theorem c3_amended_atomic_rollback
    (s1 : V1.State) (e1 : V1.AddEntry) (cf : Bool)
    (srv : V2.Server) (s2 : V2.State) (e2 : V2.AddEntry) :
    (∀ err, V1.insertWithTx s1 e1 cf = .error err →
      V1.runInsert s1 e1 cf = (.error err, s1)) ∧
    (∀ id s', V1.insertWithTx s1 e1 false = .ok (id, s') →
      V1.runInsert s1 e1 true = (.error .unavailable, s1)) ∧
    (∀ err, V2.insertWithTx srv s2 e2 = .error err →
      V2.runInsert srv s2 e2 cf = (.error err, s2)) ∧
    (∀ id s', V2.insertWithTx srv s2 e2 = .ok (id, s') →
      V2.runInsert srv s2 e2 true = (.error V2.commitErr, s2)) := by
  refine ⟨?_, ?_, ?_, ?_⟩
  · intro err h
    rw [V1.runInsert]
    simp only [h]
  · intro id s' h
    rw [V1.insertWithTx] at h
    cases hd : V1.dispatchInsert s1 e1 with
    | error er => simp [hd] at h
    | ok p =>
      obtain ⟨n, st⟩ := p
      rw [V1.runInsert, V1.insertWithTx]
      simp [hd]
  · intro err h
    rw [V2.runInsert]
    simp only [h]
  · intro id s' h
    rw [V2.runInsert]
    simp only [h, if_true]

/-- Witness for C3 amended, exercising all four conjuncts on the example
directory: a duplicate insert rolls back with AlreadyExists in V1, a
commit failure after a successful V1 insert yields Unavailable, a
missing parent rolls back with NoSuchObject in V2, and a commit failure
after a successful V2 insert yields the raw commit error. -/
theorem c3_amended_atomic_rollback_witness :
    V1.runInsert exV1State ⟨peopleDN, "x", "y"⟩ false = (.error .alreadyExists, exV1State) ∧
    V1.runInsert exV1State exV1Alice true = (.error .unavailable, exV1State) ∧
    V2.runInsert exServer ⟨[], [], [], 1⟩ ⟨aliceDN, "u", "c", "m", "e", "f", []⟩ false =
      (.error .noSuchObject, ⟨[], [], [], 1⟩) ∧
    V2.runInsert exServer exV2State exV2Group true = (.error V2.commitErr, exV2State) :=
  ⟨(c3_amended_atomic_rollback exV1State ⟨peopleDN, "x", "y"⟩ false
      exServer exV2State exV2Group).1 .alreadyExists (by decide),
   (c3_amended_atomic_rollback exV1State exV1Alice false
      exServer exV2State exV2Group).2.1 3 exV1StateAfter (by decide),
   (c3_amended_atomic_rollback exV1State exV1Alice false
      exServer ⟨[], [], [], 1⟩ ⟨aliceDN, "u", "c", "m", "e", "f", []⟩).2.2.1
      .noSuchObject (by decide),
   (c3_amended_atomic_rollback exV1State exV1Alice false
      exServer exV2State exV2Group).2.2.2 4 exV2StateAfter (by decide)⟩

/-- V2 store after inserting only the entry row of the cn=badg group
(its membership reference never resolved, so no edge exists). -/
def exV2StateBadEntry : V2.State :=
  ⟨[⟨1, V2.ROOT_ID, "dc=example", "dc=Example", "u1", "c1", "m1", "a", "b"⟩,
    ⟨2, 1, "ou=people", "ou=People", "u2", "c2", "m2", "c", "d"⟩,
    ⟨3, 2, "cn=alice", "cn=Alice", "u3", "c3", "m3", "e", "f"⟩,
    ⟨4, 2, "cn=badg", "cn=BadG", "u5", "c5", "m5", "g", "h"⟩],
   [⟨1, "/", ""⟩], [], 4 + 1⟩

/-- C2, evaluated at the failing input: the cn=badg group declares one
membership reference, cn=bob, which normalizes but resolves to no
existing entry. insertSubMembers correctly fails the batch with
InvalidDNSyntax, but insertMember discards that return value at both
call sites of the batching loop, so insertMember reports success with
zero edges and the whole Insert commits the entry and returns its id —
the call does not fail with InvalidDNSyntax as specified. -/
theorem c2_membership_error_dropped :
    V2.insertSubMembers exServer exV2StateBadEntry 4 exV2GroupBad.members
      [("dc=Example", 1), ("ou=people,dc=example", 2)] = .error .invalidDNSyntax ∧
    V2.insertMember exServer exV2StateBadEntry 4 exV2GroupBad = .ok exV2StateBadEntry ∧
    V2.runInsert exServer exV2State exV2GroupBad false = (.ok 4, exV2StateBadEntry) := by
  decide

/-! ### Batching lemmas for the member resolver -/

theorem chunks_flatten {α : Type} (l : List α) (m : Nat) :
    ∀ g : Nat,
      (((List.range g).map (fun i => (l.drop (i * m)).take m)).flatten = l.take (g * m)) := by
  intro g
  induction g with
  | zero => simp
  | succ g ih =>
    rw [List.range_succ, List.map_append, List.flatten_append, ih]
    simp only [List.map_cons, List.map_nil, List.flatten_cons, List.flatten_nil, List.append_nil]
    rw [← List.take_add, Nat.succ_mul]

/-- C9: the member resolver of repo_create.go partitions a non-empty
reference list of length n into n / 100 batches of exactly 100 plus,
when n % 100 is non-zero, one final batch of n % 100: the concatenation
of the batches is the original list (every reference lands in exactly
one batch, in order) and the batch lengths are exactly the stated ones,
so no batched statement covers more than 100 references. -/
theorem c9_member_batching (l : List V2.MemberEntry) (h : 0 < l.length) :
    (V2.memberBatches l).flatten = l ∧
    (V2.memberBatches l).map List.length =
      List.replicate (l.length / 100) 100 ++
        (if l.length % 100 = 0 then [] else [l.length % 100]) := by
  have hdm : 100 * (l.length / 100) + l.length % 100 = l.length :=
    Nat.div_add_mod l.length 100
  constructor
  · rw [V2.memberBatches]
    by_cases hrem : l.length % 100 = 0
    · rw [if_neg (by omega)]
      simp only [List.append_nil]
      rw [chunks_flatten]
      have : l.length / 100 * 100 = l.length := by omega
      rw [this, List.take_length]
    · rw [if_pos (by omega)]
      rw [List.flatten_append, chunks_flatten]
      simp only [List.flatten_cons, List.flatten_nil, List.append_nil]
      rw [← List.take_add]
      have : l.length / 100 * 100 + l.length % 100 = l.length := by omega
      rw [this, List.take_length]
  · rw [V2.memberBatches]
    rw [List.map_append]
    have hfirst : ((List.range (l.length / 100)).map
        (fun i => (l.drop (i * 100)).take 100)).map List.length =
        List.replicate (l.length / 100) 100 := by
      rw [List.eq_replicate_iff]
      constructor
      · simp
      · intro b hb
        simp only [List.map_map, List.mem_map, List.mem_range] at hb
        obtain ⟨i, hi, hbi⟩ := hb
        subst hbi
        simp only [Function.comp_apply, List.length_take, List.length_drop]
        have : i * 100 + 100 ≤ l.length := by omega
        omega
    rw [hfirst]
    by_cases hrem : l.length % 100 = 0
    · rw [if_neg (by omega), if_pos hrem]
      simp
    · rw [if_pos (by omega), if_neg hrem]
      simp only [List.map_cons, List.map_nil, List.length_take, List.length_drop]
      have : min (l.length % 100) (l.length - l.length / 100 * 100) = l.length % 100 := by
        omega
      rw [this]

/-- Witness for C9: a list of three references forms a single final
batch of three. -/
theorem c9_member_batching_witness :
    (V2.memberBatches [⟨"member", "a"⟩, ⟨"member", "b"⟩, ⟨"member", "c"⟩]).flatten =
      [⟨"member", "a"⟩, ⟨"member", "b"⟩, ⟨"member", "c"⟩] ∧
    (V2.memberBatches [⟨"member", "a"⟩, ⟨"member", "b"⟩, ⟨"member", "c"⟩]).map List.length =
      List.replicate (([⟨"member", "a"⟩, ⟨"member", "b"⟩, ⟨"member", "c"⟩] :
        List V2.MemberEntry).length / 100) 100 ++
        (if ([⟨"member", "a"⟩, ⟨"member", "b"⟩, ⟨"member", "c"⟩] :
          List V2.MemberEntry).length % 100 = 0 then []
         else [([⟨"member", "a"⟩, ⟨"member", "b"⟩, ⟨"member", "c"⟩] :
          List V2.MemberEntry).length % 100]) :=
  c9_member_batching [⟨"member", "a"⟩, ⟨"member", "b"⟩, ⟨"member", "c"⟩] (by decide)

/-- C8: serialized race of two child inserts sharing the parent and
rdn_norm (the second runs on the state committed by the first, the
serialization the protective parent-row lock provides): the first
returns the new id, the second reports AlreadyExists, exactly one
matching entry row remains, and the parent lookup of insertEntry is
built with the locking FindOption. -/
theorem c8_sibling_race (s : V1.State) (e1 e2 : V1.AddEntry) (p : V1.Entry)
    (h1 : e1.dn.IsRoot = false) (h2 : e2.dn.IsRoot = false)
    (hpp : e2.dn.ParentDN = e1.dn.ParentDN)
    (hrdn : e2.dn.RDNNorm = e1.dn.RDNNorm)
    (hpar : V1.resolveDN s e1.dn.ParentDN = some p)
    (hnodup : ∀ e ∈ s.entries, ¬(e.parent = some p.id ∧ e.rdn_norm = e1.dn.RDNNorm)) :
    V1.insertEntry s e1 = .ok (s.nextId, p.id,
      { s with
        entries := s.entries ++
          [⟨s.nextId, some p.id, e1.dn.RDNNorm, e1.dn.RDNOrig, e1.attrs_norm, e1.attrs_orig⟩]
        nextId := s.nextId + 1 }) ∧
    V1.insertEntry
      { s with
        entries := s.entries ++
          [⟨s.nextId, some p.id, e1.dn.RDNNorm, e1.dn.RDNOrig, e1.attrs_norm, e1.attrs_orig⟩]
        nextId := s.nextId + 1 } e2 = .error .alreadyExists ∧
    (s.entries ++
      [(⟨s.nextId, some p.id, e1.dn.RDNNorm, e1.dn.RDNOrig, e1.attrs_norm, e1.attrs_orig⟩ :
        V1.Entry)]).countP
        (fun e => e.parent = some p.id && e.rdn_norm = e1.dn.RDNNorm) = 1 ∧
    V1.insertEntryFindOption.lock = true := by
  have hany : s.entries.any
      (fun e => e.parent = some p.id && e.rdn_norm = e1.dn.RDNNorm) = false := by
    rw [← Bool.not_eq_true, List.any_eq_true]
    rintro ⟨e, he, hpe⟩
    simp only [Bool.and_eq_true, decide_eq_true_eq] at hpe
    exact hnodup e he hpe
  have hcount0 : s.entries.countP
      (fun e => e.parent = some p.id && e.rdn_norm = e1.dn.RDNNorm) = 0 := by
    rw [List.countP_eq_zero]
    intro e he hpe
    simp only [Bool.and_eq_true, decide_eq_true_eq] at hpe
    exact hnodup e he hpe
  refine ⟨?_, ?_, ?_, rfl⟩
  · rw [V1.insertEntry, if_neg (by simp [h1]), hpar]
    simp only [hany, Bool.false_eq_true, if_false]
  · rw [V1.insertEntry, if_neg (by simp [h2]), hpp]
    have hres2 : V1.resolveDN
        { s with
          entries := s.entries ++
            [⟨s.nextId, some p.id, e1.dn.RDNNorm, e1.dn.RDNOrig, e1.attrs_norm, e1.attrs_orig⟩]
          nextId := s.nextId + 1 } e1.dn.ParentDN = some p :=
      resolveRDNs_mono rfl hpar
    rw [hres2]
    have hany2 : (s.entries ++
        [(⟨s.nextId, some p.id, e1.dn.RDNNorm, e1.dn.RDNOrig, e1.attrs_norm, e1.attrs_orig⟩ :
          V1.Entry)]).any
        (fun e => e.parent = some p.id && e.rdn_norm = e2.dn.RDNNorm) = true := by
      rw [List.any_eq_true]
      exact ⟨⟨s.nextId, some p.id, e1.dn.RDNNorm, e1.dn.RDNOrig, e1.attrs_norm, e1.attrs_orig⟩,
        by simp, by simp [hrdn]⟩
    simp only [hany2, if_true]
  · rw [List.countP_append, hcount0]
    simp

/-- Witness for C8: inserting cn=alice twice under ou=people in the
example V1 store: the first call returns id 3, the second reports
AlreadyExists, and one matching row remains. -/
theorem c8_sibling_race_witness :
    V1.insertEntry exV1State exV1Alice = .ok (3, 2,
      { exV1State with
        entries := exV1State.entries ++
          [⟨3, some 2, "cn=alice", "cn=Alice", "e", "f"⟩]
        nextId := 4 }) ∧
    V1.insertEntry
      { exV1State with
        entries := exV1State.entries ++
          [⟨3, some 2, "cn=alice", "cn=Alice", "e", "f"⟩]
        nextId := 4 } exV1Alice = .error .alreadyExists :=
  ⟨((c8_sibling_race exV1State exV1Alice exV1Alice
      ⟨2, some 1, "ou=people", "ou=People", "c", "d"⟩
      (by decide) (by decide) rfl rfl (by decide) (by decide)).1),
   ((c8_sibling_race exV1State exV1Alice exV1Alice
      ⟨2, some 1, "ou=people", "ou=People", "c", "d"⟩
      (by decide) (by decide) rfl rfl (by decide) (by decide)).2.1)⟩

/-! ### Path-invariant preservation (C5) -/

theorem pathOk_mono {s s2 : V1.State} {t : V1.TreeNode} {e : V1.Entry}
    {l : List V1.TreeNode} (h2 : s2.tree = s.tree ++ l)
    (h : V1.pathOk s t e) : V1.pathOk s2 t e := by
  unfold V1.pathOk at h ⊢
  cases hep : e.parent with
  | none =>
    simp only [hep] at h ⊢
    exact h
  | some pid =>
    simp only [hep] at h ⊢
    obtain ⟨pt, hpt, hid, hpath⟩ := h
    exact ⟨pt, by rw [h2]; exact List.mem_append_left _ hpt, hid, hpath⟩

theorem resolveDN_root_parent {s : V1.State} {dn : DN} {p : V1.Entry}
    (hroot : dn.IsRoot = true) (h : V1.resolveDN s dn = some p) : p.parent = none := by
  have hlen : dn.rdns.length = 1 := by
    unfold DN.IsRoot at hroot
    exact of_decide_eq_true hroot
  obtain ⟨r, hr⟩ := List.length_eq_one.mp hlen
  rw [V1.resolveDN, hr] at h
  simp only [V1.resolveRDNs] at h
  have hp := List.find?_some h
  simp only [Bool.and_eq_true, decide_eq_true_eq] at hp
  exact hp.1

theorem v1_insertEntry_ok_shape {s : V1.State} {e : V1.AddEntry} {n pid : Nat}
    {s' : V1.State} (h : V1.insertEntry s e = .ok (n, pid, s')) :
    ∃ p, V1.resolveDN s e.dn.ParentDN = some p ∧ pid = p.id ∧ n = s.nextId ∧
      s' = { s with
        entries := s.entries ++
          [⟨s.nextId, some p.id, e.dn.RDNNorm, e.dn.RDNOrig, e.attrs_norm, e.attrs_orig⟩]
        nextId := s.nextId + 1 } := by
  rw [V1.insertEntry] at h
  by_cases hroot : e.dn.IsRoot = true
  · rw [if_pos hroot] at h
    exact absurd h (by simp)
  · rw [if_neg hroot] at h
    cases hres : V1.resolveDN s e.dn.ParentDN with
    | none => simp [hres] at h
    | some p =>
      simp only [hres] at h
      by_cases hany :
          (s.entries.any fun x => x.parent = some p.id && x.rdn_norm = e.dn.RDNNorm) = true
      · simp [hany] at h
      · rw [if_neg hany] at h
        simp only [Except.ok.injEq, Prod.mk.injEq] at h
        obtain ⟨hn, hpid, hs⟩ := h
        exact ⟨p, rfl, hpid.symm, hn.symm, hs.symm⟩

theorem v1_insertRootEntry_inv {s : V1.State} {e : V1.AddEntry} {n : Nat}
    {s' : V1.State} (hInv : V1.Inv s) (h : V1.insertRootEntry s e = .ok (n, s')) :
    V1.Inv s' := by
  obtain ⟨hEU, hTU, ⟨hBe, hBt⟩, hPI⟩ := hInv
  rw [V1.insertRootEntry] at h
  by_cases hroot : e.dn.IsRoot = true
  · rw [if_neg (by simp [hroot])] at h
    by_cases hany :
        (s.entries.any fun x => x.parent = none && x.rdn_norm = e.dn.RDNNorm) = true
    · simp [hany] at h
    · rw [if_neg hany] at h
      simp only [Except.ok.injEq, Prod.mk.injEq] at h
      obtain ⟨-, hs⟩ := h
      subst hs
      refine ⟨?_, hTU, ⟨?_, ?_⟩, ?_⟩
      · rw [V1.EntriesUnique, List.pairwise_append]
        refine ⟨hEU, by simp, ?_⟩
        intro a ha b hb
        simp only [List.mem_singleton] at hb
        subst hb
        exact fun heq => absurd (heq ▸ hBe a ha) (by simp)
      · intro x hx
        rcases List.mem_append.mp hx with hx | hx
        · exact Nat.lt_succ_of_lt (hBe x hx)
        · simp only [List.mem_singleton] at hx
          subst hx
          exact Nat.lt_succ_self _
      · exact fun t ht => Nat.lt_succ_of_lt (hBt t ht)
      · intro t ht x hx hxid
        rcases List.mem_append.mp hx with hx | hx
        · exact hPI t ht x hx hxid
        · simp only [List.mem_singleton] at hx
          subst hx
          exact absurd hxid (by have := hBt t ht; simp; omega)
  · rw [if_pos (by simp [hroot])] at h
    exact absurd h (by simp)

theorem resolveRDNs_mem {s : V1.State} {rdns : List RDN} {p : V1.Entry}
    (h : V1.resolveRDNs s rdns = some p) : p ∈ s.entries := by
  cases rdns with
  | nil => simp [V1.resolveRDNs] at h
  | cons r rest =>
    cases rest with
    | nil =>
      simp only [V1.resolveRDNs] at h
      exact List.mem_of_find?_eq_some h
    | cons r2 rest2 =>
      simp only [V1.resolveRDNs] at h
      cases hrec : V1.resolveRDNs s (r2 :: rest2) with
      | none => rw [hrec] at h; exact absurd h (by simp)
      | some q =>
        rw [hrec] at h
        exact List.mem_of_find?_eq_some h

theorem v1_insertEntry_inv {s : V1.State} {e : V1.AddEntry} {n pid : Nat}
    {s' : V1.State} (hInv : V1.Inv s) (h : V1.insertEntry s e = .ok (n, pid, s')) :
    V1.Inv s' ∧ pid < s.nextId ∧ s'.nextId = s.nextId + 1 ∧ s'.tree = s.tree ∧
      (∃ p ∈ s.entries, pid = p.id ∧
        (e.dn.ParentDN.IsRoot = true → ∀ x ∈ s'.entries, x.id = pid → x.parent = none)) := by
  obtain ⟨hEU, hTU, ⟨hBe, hBt⟩, hPI⟩ := hInv
  obtain ⟨p, hres, hpid, hn, hs⟩ := v1_insertEntry_ok_shape h
  have hmem : p ∈ s.entries := resolveRDNs_mem hres
  have hplt : p.id < s.nextId := hBe p hmem
  subst hs hpid hn
  refine ⟨⟨?_, hTU, ⟨?_, ?_⟩, ?_⟩, hplt, rfl, rfl, ⟨p, hmem, rfl, ?_⟩⟩
  · rw [V1.EntriesUnique, List.pairwise_append]
    refine ⟨hEU, by simp, ?_⟩
    intro a ha b hb
    simp only [List.mem_singleton] at hb
    subst hb
    exact fun heq => absurd (heq ▸ hBe a ha) (by simp)
  · intro x hx
    rcases List.mem_append.mp hx with hx | hx
    · exact Nat.lt_succ_of_lt (hBe x hx)
    · simp only [List.mem_singleton] at hx
      subst hx
      exact Nat.lt_succ_self _
  · exact fun t ht => Nat.lt_succ_of_lt (hBt t ht)
  · intro t ht x hx hxid
    rcases List.mem_append.mp hx with hx | hx
    · exact pathOk_mono (l := []) (by simp) (hPI t ht x hx hxid)
    · simp only [List.mem_singleton] at hx
      subst hx
      exact absurd hxid (by have := hBt t ht; simp; omega)
  · intro hroot x hx hxid
    have hpnone : p.parent = none := resolveDN_root_parent hroot hres
    rcases List.mem_append.mp hx with hx | hx
    · have : x = p := pairwise_key_eq hEU x hx p hmem hxid
      rw [this, hpnone]
    · simp only [List.mem_singleton] at hx
      subst hx
      exact absurd hxid (by simp; omega)

theorem v1_insertTree_inv {s : V1.State} {id : Nat} {isRoot : Bool} {s' : V1.State}
    (hInv : V1.Inv s) (hid : id < s.nextId)
    (hroot : isRoot = true → ∀ x ∈ s.entries, x.id = id → x.parent = none)
    (h : V1.insertTree s id isRoot = .ok s') : V1.Inv s' := by
  obtain ⟨hEU, hTU, ⟨hBe, hBt⟩, hPI⟩ := hInv
  rw [V1.insertTree] at h
  by_cases hany : (s.tree.any fun t => t.id = id) = true
  · rw [if_pos hany] at h
    simp only [Except.ok.injEq] at h
    subst h
    exact ⟨hEU, hTU, ⟨hBe, hBt⟩, hPI⟩
  · have hfresh : ∀ t ∈ s.tree, t.id ≠ id := by
      intro t ht heq
      exact hany (List.any_eq_true.mpr ⟨t, ht, by simp [heq]⟩)
    rw [if_neg hany] at h
    cases isRoot with
    | true =>
      rw [if_pos rfl] at h
      simp only [Except.ok.injEq] at h
      subst h
      refine ⟨hEU, ?_, ⟨hBe, ?_⟩, ?_⟩
      · rw [V1.TreeUnique, List.pairwise_append]
        refine ⟨hTU, by simp, ?_⟩
        intro a ha b hb
        simp only [List.mem_singleton] at hb
        subst hb
        exact hfresh a ha
      · intro t ht
        rcases List.mem_append.mp ht with ht | ht
        · exact hBt t ht
        · simp only [List.mem_singleton] at ht
          subst ht
          exact hid
      · intro t ht x hx hxid
        rcases List.mem_append.mp ht with ht | ht
        · exact pathOk_mono rfl (hPI t ht x hx hxid)
        · simp only [List.mem_singleton] at ht
          subst ht
          have hxp : x.parent = none := hroot rfl x hx hxid
          unfold V1.pathOk
          simp only [hxp]
    | false =>
      rw [if_neg (by simp)] at h
      cases hfind : s.tree.find?
          (fun t => s.entries.any (fun x => x.id = id && x.parent = some t.id)) with
      | none =>
        rw [hfind] at h
        simp only [Except.ok.injEq] at h
        subst h
        exact ⟨hEU, hTU, ⟨hBe, hBt⟩, hPI⟩
      | some t0 =>
        rw [hfind] at h
        simp only [Except.ok.injEq] at h
        subst h
        have ht0mem : t0 ∈ s.tree := List.mem_of_find?_eq_some hfind
        have ht0any := List.find?_some hfind
        rw [List.any_eq_true] at ht0any
        obtain ⟨e0, he0, he0p⟩ := ht0any
        simp only [Bool.and_eq_true, decide_eq_true_eq] at he0p
        obtain ⟨he0id, he0par⟩ := he0p
        refine ⟨hEU, ?_, ⟨hBe, ?_⟩, ?_⟩
        · rw [V1.TreeUnique, List.pairwise_append]
          refine ⟨hTU, by simp, ?_⟩
          intro a ha b hb
          simp only [List.mem_singleton] at hb
          subst hb
          exact hfresh a ha
        · intro t ht
          rcases List.mem_append.mp ht with ht | ht
          · exact hBt t ht
          · simp only [List.mem_singleton] at ht
            subst ht
            exact hid
        · intro t ht x hx hxid
          rcases List.mem_append.mp ht with ht | ht
          · exact pathOk_mono rfl (hPI t ht x hx hxid)
          · simp only [List.mem_singleton] at ht
            subst ht
            have hxe0 : x = e0 := pairwise_key_eq hEU x hx e0 he0 (by rw [hxid, he0id])
            unfold V1.pathOk
            subst hxe0
            simp only [he0par]
            exact ⟨t0, List.mem_append_left _ ht0mem, rfl, rfl⟩

theorem v1_insertEntryAndTree_inv {s : V1.State} {e : V1.AddEntry} {n pid : Nat}
    {s2 : V1.State} (hInv : V1.Inv s)
    (h : V1.insertEntryAndTree s e = .ok (n, pid, s2)) : V1.Inv s2 := by
  rw [V1.insertEntryAndTree] at h
  by_cases hroot : e.dn.IsRoot = true
  · rw [if_pos hroot] at h
    exact absurd h (by simp)
  · rw [if_neg hroot] at h
    cases hres : V1.insertEntry s e with
    | error er => simp [hres] at h
    | ok r =>
      obtain ⟨n1, pid1, s1⟩ := r
      simp only [hres] at h
      obtain ⟨hInv1, hplt, hnext, -, -⟩ := v1_insertEntry_inv hInv hres
      obtain ⟨-, -, -, -, p, hpmem, hpid, hrootimp⟩ := v1_insertEntry_inv hInv hres
      cases hins : V1.insertTree s1 pid1 e.dn.ParentDN.IsRoot with
      | error er => simp [hins] at h
      | ok s2m =>
        simp only [hins, Except.ok.injEq, Prod.mk.injEq] at h
        obtain ⟨-, -, hs2⟩ := h
        subst hs2
        exact v1_insertTree_inv hInv1 (by omega) hrootimp hins

/-- C5: the materialized-path invariant: for every entry that has a
TreeNode row, the stored path is the parent TreeNode's path extended by
the entry's own id, and a root entry's TreeNode path is its own id; the
invariant (together with the uniqueness and boundedness invariants that
carry it) is preserved by every Insert of part_000, so it holds
transitively in every store reachable from an invariant-satisfying
one. -/
theorem c5_materialized_path_invariant (s : V1.State) (e : V1.AddEntry) (cf : Bool)
    (hInv : V1.Inv s) :
    V1.PathInv ((V1.runInsert s e cf).2) ∧ V1.Inv ((V1.runInsert s e cf).2) := by
  have main : ∀ q : Nat × V1.State, V1.dispatchInsert s e = .ok q → V1.Inv q.2 := by
    intro q hq
    obtain ⟨n, s1⟩ := q
    rw [V1.dispatchInsert] at hq
    by_cases hroot : e.dn.IsRoot = true
    · rw [if_pos hroot] at hq
      exact v1_insertRootEntry_inv hInv hq
    · rw [if_neg hroot] at hq
      cases ht : V1.insertEntryAndTree s e with
      | error er => simp [ht, Except.map] at hq
      | ok r2 =>
        obtain ⟨n2, pid2, s2⟩ := r2
        simp only [ht, Except.map, Except.ok.injEq, Prod.mk.injEq] at hq
        obtain ⟨-, hs⟩ := hq
        subst hs
        exact v1_insertEntryAndTree_inv hInv ht
  rw [V1.runInsert]
  cases hd : V1.insertWithTx s e cf with
  | error er => exact ⟨hInv.2.2.2, hInv⟩
  | ok p =>
    obtain ⟨n, s1⟩ := p
    rw [V1.insertWithTx] at hd
    cases hdd : V1.dispatchInsert s e with
    | error er => simp [hdd] at hd
    | ok q =>
      obtain ⟨n2, s2⟩ := q
      simp only [hdd] at hd
      cases cf with
      | true => simp at hd
      | false =>
        simp only [if_false, Bool.false_eq_true, Except.ok.injEq, Prod.mk.injEq] at hd
        obtain ⟨hn, hs⟩ := hd
        subst hn
        subst hs
        have hq := main _ hdd
        exact ⟨hq.2.2.2, hq⟩

/-- Witness for C5: the example V1 store satisfies the invariants and
keeps the path invariant after inserting cn=alice (which also promotes
ou=people with path 1/2). -/
theorem c5_materialized_path_invariant_witness :
    V1.PathInv ((V1.runInsert exV1State exV1Alice false).2) ∧
    V1.Inv ((V1.runInsert exV1State exV1Alice false).2) :=
  c5_materialized_path_invariant exV1State exV1Alice false
    ⟨by unfold V1.EntriesUnique; decide, by unfold V1.TreeUnique; decide,
     ⟨by decide, by decide⟩,
     by
      intro t ht x hx hxid
      simp only [exV1State, List.mem_singleton, List.mem_cons] at ht hx
      rcases ht with rfl | ht
      · rcases hx with rfl | rfl | hx
        · simp [V1.pathOk]
        · simp at hxid
        · simp at hx
      · simp at ht⟩
